import Mathlib

/-
Verification of the two-piece (step) uniform distribution drafts in
pycbc/distributions/simplestepuniform.py and pycbc/distributions/stepuniform.py.

The embedding is shallow: real numbers of the Python layer are exact rationals,
the numpy random source is an explicit stream of unit draws (numpy uniform(a, b)
is a + (b - a) * t for a unit draw t) together with a stream of coin flips
(numpy randint(2)), and fallible Python code returns an Except value.  Integer
arithmetic follows Python 2, whose remainder is mathematical (like Int.emod) and
whose division of the nonnegative sizes reached here floors.

Two drafts of the distribution live in the sources.  simplestepuniform.py parses,
but its initializer and density method are declared without a self parameter and
refer to unbound names, which the name-resolution model below captures.
stepuniform.py fails to parse at all: the closing lines of its rvs method
(lines 152 to 155) dedent to an indentation level that matches no enclosing
block, so that module never loads; its method bodies are embedded here only to
document what the draft would compute.
-/

namespace StepUniformSpec

/-- Errors of the Python layer, together with the two error kinds named by the
specification (InvalidDomainError, InvalidArgumentError) that the source never
raises anywhere. -/
inductive PyErr where
  | nameErr : String → PyErr
  | typeErr : PyErr
  | keyErr : String → PyErr
  | valueErr : PyErr
  | zeroDivErr : PyErr
  | invalidDomain : PyErr
  | invalidArgument : PyErr
  deriving DecidableEq, Repr

/-- Builtin names visible from every scope of the module. -/
def pyBuiltins : List String := ["super", "float", "property"]

/-- Module-level names of simplestepuniform.py: its imports, the class being
defined, and the export list. -/
def moduleGlobals : List String := ["numpy", "bounded", "SimpleStepUniform", "__all__"]

/-- Python name resolution: a name is looked up in the local scope, then in the
module globals, then in the builtins; an unbound name raises NameError. -/
def resolveName (locals : List String) (n : String) : Except PyErr Unit :=
  if n ∈ locals ∨ n ∈ moduleGlobals ∨ n ∈ pyBuiltins then Except.ok ()
  else Except.error (PyErr.nameErr n)

/-- Resolve a list of names in order, stopping at the first unbound one. -/
def resolveAll (locals : List String) : List String → Except PyErr Unit
  | [] => Except.ok ()
  | n :: ns =>
    match resolveName locals n with
    | Except.error e => Except.error e
    | Except.ok _ => resolveAll locals ns

/-- The declared parameters of SimpleStepUniform.__init__ (source line 72):
lwrbnd, uprbnd and step only — there is no self parameter. -/
def simpleInitParams : List String := ["lwrbnd", "uprbnd", "step"]

/-- The names evaluated, in source order, by the first statement of that
initializer (line 73), which is super(SimpleStepUniform, self).__init__(**params). -/
def simpleInitFirstStmt : List String := ["super", "SimpleStepUniform", "self", "params"]

/-- Python division on the exact rationals of the model: a zero divisor raises
ZeroDivisionError. -/
def pyDiv (a b : ℚ) : Except PyErr ℚ :=
  if b = 0 then Except.error PyErr.zeroDivErr else Except.ok (a / b)

/-- The attribute state SimpleStepUniform.__init__ (lines 74 to 78) would store
on an instance.  The last field models the scratch attribute that the density
method would assign; it is absent right after construction. -/
structure SimpleInstance where
  lwrbnd : ℚ
  uprbnd : ℚ
  step : ℚ
  norm1 : ℚ
  norm2 : ℚ
  value : Option ℚ
  deriving DecidableEq, Repr

/-- The normalization arithmetic of the initializer, lines 77 and 78, taken in
isolation: norm1 is 0.5/(step - lwrbnd) and norm2 is 0.5/(uprbnd - step). -/
def simpleInitNorms (lwrbnd uprbnd step : ℚ) : Except PyErr (ℚ × ℚ) :=
  match pyDiv (1 / 2) (step - lwrbnd) with
  | Except.error e => Except.error e
  | Except.ok n1 =>
    match pyDiv (1 / 2) (uprbnd - step) with
    | Except.error e => Except.error e
    | Except.ok n2 => Except.ok ⟨n1, n2⟩

/-- Calling SimpleStepUniform(lwrbnd, uprbnd, step): the initializer body runs
in a scope whose only locals are its three declared parameters; its first
statement resolves the names super, SimpleStepUniform, self and params in that
order, and only then would the remaining statements store the attributes and
the two normalization constants. -/
def simpleStepUniformNew (lwrbnd uprbnd step : ℚ) : Except PyErr SimpleInstance :=
  match resolveAll simpleInitParams simpleInitFirstStmt with
  | Except.error e => Except.error e
  | Except.ok _ =>
    match simpleInitNorms lwrbnd uprbnd step with
    | Except.error e => Except.error e
    | Except.ok nn => Except.ok ⟨lwrbnd, uprbnd, step, nn.1, nn.2, none⟩

/-- The branch logic of the body of SimpleStepUniform._pdf (lines 87 to 91):
after the assignment of the queried value it returns norm1 strictly below the
step and norm2 from the step upward.  The method body contains no bounds test. -/
def simplePdfValue (inst : SimpleInstance) (v : ℚ) : ℚ :=
  if v < inst.step then inst.norm1 else inst.norm2

/-- The density method is declared as def _pdf(value=None): exactly one
parameter, and it is not self. -/
def simplePdfArity : Nat := 1

/-- A bound density query of the form inst._pdf(v): the receiver and the
queried value make two positional arguments against a one-parameter function,
so the call raises TypeError before the body runs; had the body run, its first
statement (the assignment self._value = value) resolves the name self, which is
unbound in a scope whose only local is value. -/
def simplePdfCall (inst : SimpleInstance) (v : ℚ) : Except PyErr (ℚ × SimpleInstance) :=
  if 2 ≤ simplePdfArity then
    match resolveName ["value"] ("self") with
    | Except.error e => Except.error e
    | Except.ok _ => Except.ok ⟨simplePdfValue inst v, { inst with value := some v }⟩
  else Except.error PyErr.typeErr

/-- The full density query.  The guard is modelled from the spec: the density
entry point of the bounded-distribution base class
(pycbc/distributions/bounded.py, which is not under src/) returns 0 for a value
outside the parameter bounds and otherwise delegates to the subclass by calling
the bound _pdf method — a call that fails, as simplePdfCall records, because
_pdf declares a single parameter and references the unbound name self. -/
def densityQuery (inst : SimpleInstance) (v : ℚ) : Except PyErr ℚ :=
  if v < inst.lwrbnd ∨ v > inst.uprbnd then Except.ok 0
  else
    match simplePdfCall inst v with
    | Except.error e => Except.error e
    | Except.ok rv => Except.ok rv.1

/-- The state SimpleStepUniform.rvs reads: the ordered parameter names and the
bounds mapping stored by the bounded base class (the bounds property of that
base, used on lines 133 and 137, returns the same mapping as the _bounds
attribute used elsewhere; bounded.py is not under src/ and that equation is
modelled from the spec), plus the step attribute. -/
structure SimpleDistState where
  params : List String
  bounds : List (String × (ℚ × ℚ))
  step : ℚ
  deriving DecidableEq, Repr

/-- numpy random uniform(a, b) as a function of one unit draw t: a + (b - a) * t. -/
def uniformDraw (a b t : ℚ) : ℚ := a + (b - a) * t

/-- numpy random uniform(a, b, size=n), consuming the unit draws
U k, ..., U (k + n - 1) of the stream. -/
def uniformDraws (U : Nat → ℚ) (k : Nat) (a b : ℚ) (n : Nat) : List ℚ :=
  (List.range n).map (fun j => uniformDraw a b (U (k + j)))

/-- One parameter column of the even branch of rvs (lines 119 to 126):
half draws from the low piece followed by half draws from the high piece. -/
def evenColumn (st : SimpleDistState) (U : Nat → ℚ) (k : Nat) (l u : ℚ) (half : Nat) :
    List ℚ :=
  uniformDraws U k l st.step half ++ uniformDraws U (k + half) st.step u half

/-- The even-branch loop over the dtype fields (lines 118 to 126): each field is
looked up in the bounds mapping (KeyError when absent) and contributes one
column; each column consumes 2 * half unit draws of the stream. -/
def evenColumns (st : SimpleDistState) (U : Nat → ℚ) (half : Nat) :
    List String → Nat → Except PyErr (List (String × List ℚ))
  | [], _ => Except.ok []
  | p :: ps, k =>
    match st.bounds.lookup p with
    | none => Except.error (PyErr.keyErr p)
    | some lu =>
      match evenColumns st U half ps (k + 2 * half) with
      | Except.error e => Except.error e
      | Except.ok rest => Except.ok ((p, evenColumn st U k lu.1 lu.2 half) :: rest)

/-- One parameter remainder draw of the odd branch (lines 131 to 141):
randint(2) picks the piece; the cell was preinitialized to 0 by numpy zeros and
would keep that value only if the flip produced neither 0 nor 1. -/
def remainderDraw (st : SimpleDistState) (coin : Fin 2) (t : ℚ) (l u : ℚ) : ℚ :=
  if coin = 0 then uniformDraw l st.step t
  else if coin = 1 then uniformDraw st.step u t
  else 0

/-- The remainder loop of the odd branch (lines 130 to 141): one coin flip and
one unit draw per dtype field, in field order. -/
def remainderColumns (st : SimpleDistState) (U : Nat → ℚ) (C : Nat → Fin 2) :
    List String → Nat → Except PyErr (List (String × ℚ))
  | [], _ => Except.ok []
  | p :: ps, k =>
    match st.bounds.lookup p with
    | none => Except.error (PyErr.keyErr p)
    | some lu =>
      match remainderColumns st U C ps (k + 1) with
      | Except.error e => Except.error e
      | Except.ok rest => Except.ok ((p, remainderDraw st (C k) (U k) lu.1 lu.2) :: rest)

/-- The numpy append of the remainder record array with the two half record
arrays (lines 151 and 152), seen per column: the remainder entry is followed by
the low half and then by the high half. -/
def consColumns : List (String × ℚ) → List (String × List ℚ) → List (String × List ℚ)
  | [], _ => []
  | _, [] => []
  | r :: rs, m :: ms => (r.1, r.2 :: m.2) :: consColumns rs ms

/-- SimpleStepUniform.rvs (lines 93 to 155) in the columnar view of the
structured array it builds: one (name, values) column per dtype field.  The
even branch allocates numpy zeros of the requested size first, which rejects a
negative length with ValueError; the odd branch draws one remainder per field
and, when size - 1 is positive, appends (size - 1)/2 low draws and
(size - 1)/2 high draws per field. -/
def simpleRvs (st : SimpleDistState) (U : Nat → ℚ) (C : Nat → Fin 2)
    (size : Int) (param : Option String) : Except PyErr (List (String × List ℚ)) :=
  let dtype : List String :=
    match param with
    | some p => [p]
    | none => st.params
  if size % 2 = 0 then
    if size < 0 then Except.error PyErr.valueErr
    else evenColumns st U (size / 2).toNat dtype 0
  else
    match remainderColumns st U C dtype 0 with
    | Except.error e => Except.error e
    | Except.ok rems =>
      if size - 1 > 0 then
        match evenColumns st U ((size - 1) / 2).toNat dtype dtype.length with
        | Except.error e => Except.error e
        | Except.ok mains => Except.ok (consColumns rems mains)
      else
        Except.ok (rems.map (fun rc => (rc.1, [rc.2])))

/-- The state StepUniform.__init__ (stepuniform.py lines 72 to 80) would store.
The enclosing module fails to parse (the dedents on lines 152 to 155 of its rvs
match no outer block), so none of this draft ever loads; it is embedded to
document what the draft text computes. -/
structure StepDistState where
  bounds : List (String × (ℚ × ℚ))
  step : ℚ
  deriving DecidableEq, Repr

/-- The generator expression stored as the _norm1 attribute (line 78): the lazy
sequence of low-piece norms 0.5/(step - lower) over the bounds, modelled by the
list of values it would yield.  Because the expression is lazy, none of the
divisions happens at construction time. -/
def stepNorm1 (st : StepDistState) : List ℚ :=
  st.bounds.map (fun b => 1 / 2 / (st.step - b.2.1))

/-- The generator expression stored as the _norm2 attribute (line 79). -/
def stepNorm2 (st : StepDistState) : List ℚ :=
  st.bounds.map (fun b => 1 / 2 / (b.2.2 - st.step))

/-- A result of StepUniform._pdf: either a number or the stored generator of
norms (the method returns self._norm1 itself, not a number). -/
inductive StepPdfResult where
  | num : ℚ → StepPdfResult
  | gen : List ℚ → StepPdfResult
  deriving DecidableEq, Repr

/-- Modelled from the spec: the membership test written kwargs in self, supplied
by the bounded base class (bounded.py, not under src/), holds when every
parameter value lies within the bounds of that parameter. -/
def stepContains (st : StepDistState) (vals : List (String × ℚ)) : Bool :=
  st.bounds.all (fun b =>
    match vals.lookup b.1 with
    | some v => decide (b.2.1 ≤ v ∧ v ≤ b.2.2)
    | none => false)

/-- StepUniform._pdf (lines 86 to 95): an in-bounds assignment returns the
stored _norm1 object and anything else returns 0; the step attribute and the
_norm2 object play no part in the result. -/
def stepPdf (st : StepDistState) (vals : List (String × ℚ)) : StepPdfResult :=
  if stepContains st vals then StepPdfResult.gen (stepNorm1 st) else StepPdfResult.num 0

/-- Reference density of one parameter, following the words of the spec
(section 4.2): 0 outside the bounds, the low norm on the half-open low piece,
the high norm on the closed high piece. -/
def densityRef (l s u v : ℚ) : ℚ :=
  if v < l ∨ v > u then 0
  else if v < s then 1 / 2 / (s - l)
  else 1 / 2 / (u - s)

/-- Reference joint density, following the words of the spec: the product of
the per-parameter reference densities. -/
def jointDensityRef (st : StepDistState) (vals : List (String × ℚ)) : ℚ :=
  (st.bounds.map (fun b =>
    match vals.lookup b.1 with
    | some v => densityRef b.2.1 st.step b.2.2 v
    | none => 0)).prod

/-- A one-parameter distribution state used for concrete evaluations. -/
def demoState : SimpleDistState := ⟨["mass1"], [("mass1", (0, 2))], 1⟩

/-- A constant stream of unit draws. -/
def halfStream : Nat → ℚ := fun _ => 1 / 2

/-- A constant stream of coin flips. -/
def zeroFlips : Nat → Fin 2 := fun _ => 0

/-- A concrete instance state with bounds 0 and 3 and step 1. -/
def demoInst : SimpleInstance := ⟨0, 3, 1, 1 / 2, 1 / 4, none⟩

/-- A two-parameter StepUniform state used for concrete evaluations. -/
def demoStepState : StepDistState := ⟨[("a", (0, 2)), ("b", (0, 2))], 1⟩

/-- A single numpy uniform draw lies in the half-open interval of its two
arguments whenever they are ordered and the unit draw is in the unit interval. -/
theorem uniformDraw_mem (a b t : ℚ) (hab : a < b) (h0 : 0 ≤ t) (h1 : t < 1) :
    a ≤ uniformDraw a b t ∧ uniformDraw a b t < b := by
  unfold uniformDraw
  constructor
  · nlinarith
  · nlinarith

/-- Every value of a block of numpy uniform draws lies in the half-open
interval of its two arguments. -/
theorem uniformDraws_mem (U : Nat → ℚ) (hU : ∀ i, 0 ≤ U i ∧ U i < 1)
    (k : Nat) (a b : ℚ) (hab : a < b) (n : Nat) :
    ∀ x ∈ uniformDraws U k a b n, a ≤ x ∧ x < b := by
  intro x hx
  simp only [uniformDraws, List.mem_map, List.mem_range] at hx
  obtain ⟨j, _, rfl⟩ := hx
  exact uniformDraw_mem a b (U (k + j)) hab (hU (k + j)).1 (hU (k + j)).2

theorem uniformDraws_length (U : Nat → ℚ) (k : Nat) (a b : ℚ) (n : Nat) :
    (uniformDraws U k a b n).length = n := by
  simp [uniformDraws]

theorem evenColumn_length (st : SimpleDistState) (U : Nat → ℚ) (k : Nat) (l u : ℚ)
    (half : Nat) : (evenColumn st U k l u half).length = half + half := by
  simp [evenColumn, uniformDraws]

theorem take_append_len {α : Type} (l1 l2 : List α) (n : Nat) (h : l1.length = n) :
    (l1 ++ l2).take n = l1 := by
  subst h
  exact List.take_left l1 l2

theorem drop_append_len {α : Type} (l1 l2 : List α) (n : Nat) (h : l1.length = n) :
    (l1 ++ l2).drop n = l2 := by
  subst h
  exact List.drop_left l1 l2

/-- The first half of an even-branch column is exactly its block of low draws. -/
theorem evenColumn_take (st : SimpleDistState) (U : Nat → ℚ) (k : Nat) (l u : ℚ)
    (half : Nat) :
    (evenColumn st U k l u half).take half = uniformDraws U k l st.step half := by
  unfold evenColumn
  exact take_append_len _ _ _ (uniformDraws_length U k l st.step half)

/-- The second half of an even-branch column is exactly its block of high draws. -/
theorem evenColumn_drop (st : SimpleDistState) (U : Nat → ℚ) (k : Nat) (l u : ℚ)
    (half : Nat) :
    (evenColumn st U k l u half).drop half = uniformDraws U (k + half) st.step u half := by
  unfold evenColumn
  exact drop_append_len _ _ _ (uniformDraws_length U k l st.step half)

theorem evenColumn_half_zero (st : SimpleDistState) (U : Nat → ℚ) (k : Nat) (l u : ℚ) :
    evenColumn st U k l u 0 = [] := by
  simp [evenColumn, uniformDraws]

/-- Characterization of the even-branch loop: with every dtype field present in
the bounds mapping it succeeds, keeps the field order, and field number i
carries the column of draws starting at stream offset k + i * (2 * half). -/
theorem evenColumns_spec (st : SimpleDistState) (U : Nat → ℚ) (half : Nat) :
    ∀ (ps : List String) (k : Nat),
      (∀ p ∈ ps, (st.bounds.lookup p).isSome) →
      ∃ cols, evenColumns st U half ps k = Except.ok cols ∧
        cols.map Prod.fst = ps ∧
        ∀ i pc, cols[i]? = some pc →
          ∃ l u, st.bounds.lookup pc.1 = some (l, u) ∧
            pc.2 = evenColumn st U (k + i * (2 * half)) l u half := by
  intro ps
  induction ps with
  | nil =>
    intro k _
    exact ⟨[], rfl, rfl, fun i pc h => by simp at h⟩
  | cons p ps ih =>
    intro k hb
    obtain ⟨lu, hlu⟩ := Option.isSome_iff_exists.mp (hb p (by simp))
    obtain ⟨l0, u0⟩ := lu
    obtain ⟨cols, hc, hmap, hidx⟩ := ih (k + 2 * half) (fun q hq => hb q (by simp [hq]))
    refine ⟨(p, evenColumn st U k l0 u0 half) :: cols, ?_, ?_, ?_⟩
    · simp [evenColumns, hlu, hc]
    · simp [hmap]
    · intro i pc hpc
      match i with
      | 0 =>
        rw [List.getElem?_cons_zero] at hpc
        obtain rfl := Option.some.inj hpc
        exact ⟨l0, u0, hlu, by simp⟩
      | Nat.succ i =>
        rw [List.getElem?_cons_succ] at hpc
        obtain ⟨l, u, hl, he⟩ := hidx i pc hpc
        refine ⟨l, u, hl, ?_⟩
        rw [he]
        have harith : k + 2 * half + i * (2 * half) = k + (i + 1) * (2 * half) := by ring
        rw [harith]

/-- Characterization of the remainder loop of the odd branch: with every dtype
field present it succeeds, keeps the field order, and field number i carries the
remainder draw decided by coin flip number k + i. -/
theorem remainderColumns_spec (st : SimpleDistState) (U : Nat → ℚ) (C : Nat → Fin 2) :
    ∀ (ps : List String) (k : Nat),
      (∀ p ∈ ps, (st.bounds.lookup p).isSome) →
      ∃ rems, remainderColumns st U C ps k = Except.ok rems ∧
        rems.map Prod.fst = ps ∧
        ∀ i rc, rems[i]? = some rc →
          ∃ l u, st.bounds.lookup rc.1 = some (l, u) ∧
            rc.2 = remainderDraw st (C (k + i)) (U (k + i)) l u := by
  intro ps
  induction ps with
  | nil =>
    intro k _
    exact ⟨[], rfl, rfl, fun i rc h => by simp at h⟩
  | cons p ps ih =>
    intro k hb
    obtain ⟨lu, hlu⟩ := Option.isSome_iff_exists.mp (hb p (by simp))
    obtain ⟨l0, u0⟩ := lu
    obtain ⟨rems, hc, hmap, hidx⟩ := ih (k + 1) (fun q hq => hb q (by simp [hq]))
    refine ⟨(p, remainderDraw st (C k) (U k) l0 u0) :: rems, ?_, ?_, ?_⟩
    · simp [remainderColumns, hlu, hc]
    · simp [hmap]
    · intro i rc hrc
      match i with
      | 0 =>
        rw [List.getElem?_cons_zero] at hrc
        obtain rfl := Option.some.inj hrc
        exact ⟨l0, u0, hlu, by simp⟩
      | Nat.succ i =>
        rw [List.getElem?_cons_succ] at hrc
        obtain ⟨l, u, hl, he⟩ := hidx i rc hrc
        refine ⟨l, u, hl, ?_⟩
        rw [he]
        have harith : k + 1 + i = k + (i + 1) := by ring
        rw [harith]

theorem remainderDraw_low (st : SimpleDistState) (t l u : ℚ) :
    remainderDraw st 0 t l u = uniformDraw l st.step t := rfl

theorem remainderDraw_high (st : SimpleDistState) (t l u : ℚ) :
    remainderDraw st 1 t l u = uniformDraw st.step u t := rfl

theorem consColumns_map_fst : ∀ (rs : List (String × ℚ)) (ms : List (String × List ℚ)),
    rs.length = ms.length →
    (consColumns rs ms).map Prod.fst = rs.map Prod.fst := by
  intro rs
  induction rs with
  | nil => intro ms _; simp [consColumns]
  | cons r rs ih =>
    intro ms h
    match ms with
    | [] => simp at h
    | m :: ms =>
      simp only [consColumns, List.map_cons]
      rw [ih ms (by simpa using h)]

theorem consColumns_getElem : ∀ (rs : List (String × ℚ)) (ms : List (String × List ℚ))
    (i : Nat) (pc : String × List ℚ), (consColumns rs ms)[i]? = some pc →
    ∃ r m, rs[i]? = some r ∧ ms[i]? = some m ∧ pc = (r.1, r.2 :: m.2) := by
  intro rs
  induction rs with
  | nil => intro ms i pc h; simp [consColumns] at h
  | cons r rs ih =>
    intro ms i pc h
    match ms with
    | [] => simp [consColumns] at h
    | m :: ms =>
      match i with
      | 0 =>
        rw [show consColumns (r :: rs) (m :: ms) = (r.1, r.2 :: m.2) :: consColumns rs ms
              from rfl, List.getElem?_cons_zero] at h
        obtain rfl := Option.some.inj h
        exact ⟨r, m, by rw [List.getElem?_cons_zero], by rw [List.getElem?_cons_zero], rfl⟩
      | Nat.succ i =>
        rw [show consColumns (r :: rs) (m :: ms) = (r.1, r.2 :: m.2) :: consColumns rs ms
              from rfl, List.getElem?_cons_succ] at h
        obtain ⟨r', m', h1, h2, h3⟩ := ih ms i pc h
        exact ⟨r', m', by rw [List.getElem?_cons_succ]; exact h1,
               by rw [List.getElem?_cons_succ]; exact h2, h3⟩

theorem map_singleton_fst : ∀ (l : List (String × ℚ)),
    (l.map (fun rc => (rc.1, ([rc.2] : List ℚ)))).map Prod.fst = l.map Prod.fst := by
  intro l
  induction l with
  | nil => rfl
  | cons x xs ih => simp only [List.map_cons, ih]

/-- C9: SimpleStepUniform can never be instantiated: its initializer is
declared without a self parameter and its body refers to the unbound names self
and params, so every construction attempt raises NameError before anything is
stored, and no method of the class is ever reachable on an instance. -/
theorem simple_init_always_raises :
    ("self") ∉ simpleInitParams ∧
    resolveName simpleInitParams ("params") = Except.error (PyErr.nameErr ("params")) ∧
    ∀ l u s : ℚ, simpleStepUniformNew l u s = Except.error (PyErr.nameErr ("self")) :=
  ⟨by decide, rfl, fun _ _ _ => rfl⟩

/-- C10 counterexample: the density query of the concrete value 2 on the
concrete instance state raises TypeError; it does not return the branch result
together with the instance whose value field holds the queried value, so the
query does not assign the queried value before branching. -/
theorem simple_pdf_query_counterexample :
    simplePdfCall demoInst 2 = Except.error PyErr.typeErr ∧
    (Except.error PyErr.typeErr ≠
      Except.ok (simplePdfValue demoInst 2, { demoInst with value := some 2 })) :=
  ⟨rfl, fun h => Except.noConfusion h⟩

/-- C10 amended: a density query never mutates the instance: the bound call
passing the queried value raises TypeError before the body runs (the method
declares one parameter and the call supplies the receiver and the value), and
the first statement of the body would itself raise NameError on the unbound
name self rather than store anything; the failed query changes no field. -/
theorem simple_pdf_query_never_mutates (inst : SimpleInstance) (v : ℚ) :
    simplePdfCall inst v = Except.error PyErr.typeErr ∧
    resolveName ["value"] ("self") = Except.error (PyErr.nameErr ("self")) :=
  ⟨rfl, rfl⟩

/-- C4 counterexample: constructing with the degenerate triple of lower bound
0, step 0 and upper bound 10 does not raise InvalidDomainError; it raises
NameError, as every construction attempt does, valid triples included. -/
theorem simple_construction_counterexample :
    simpleStepUniformNew 0 10 0 ≠ Except.error PyErr.invalidDomain ∧
    simpleStepUniformNew 0 10 0 = Except.error (PyErr.nameErr ("self")) := by
  refine ⟨?_, rfl⟩
  intro h
  have h2 : (PyErr.nameErr ("self")) = PyErr.invalidDomain :=
    Except.error.inj (by rw [← h]; rfl)
  cases h2

/-- C4 amended: construction never performs a domain check: every call of
SimpleStepUniform raises NameError before any validation could run, and the
initializer arithmetic that would follow raises ZeroDivisionError, not
InvalidDomainError, whenever the step equals either bound; no code path raises
InvalidDomainError. -/
theorem simple_construction_never_validates (l u s : ℚ) :
    simpleStepUniformNew l u s = Except.error (PyErr.nameErr ("self")) ∧
    ((s = l ∨ s = u) → simpleInitNorms l u s = Except.error PyErr.zeroDivErr) := by
  refine ⟨rfl, ?_⟩
  intro h
  by_cases hsl : s - l = 0
  · simp [simpleInitNorms, pyDiv, hsl]
  · have hsu : u - s = 0 := by
      rcases h with h | h
      · exact absurd (by rw [h]; exact sub_self l) hsl
      · rw [h]; exact sub_self u
    simp [simpleInitNorms, pyDiv, hsl, hsu]

/-- C4 amended, witness at the degenerate triple of lower 0, step 0, upper 10. -/
theorem simple_construction_never_validates_witness :
    simpleStepUniformNew 0 10 0 = Except.error (PyErr.nameErr ("self")) ∧
    simpleInitNorms 0 10 0 = Except.error PyErr.zeroDivErr :=
  ⟨(simple_construction_never_validates 0 10 0).1,
   (simple_construction_never_validates 0 10 0).2 (Or.inl rfl)⟩

/-- C3: evaluation at the failing input: on the valid specification with lower
0, step 1, upper 3, the in-bounds density query of value 2 raises TypeError —
it never returns the reference value norm2 = 1/4 that the claim requires, nor
any other number — because _pdf is declared without a self parameter; only the
out-of-bounds guard supplied by the base class returns 0, as shown at the
values 4 and -1. -/
theorem simple_density_query_raises :
    densityQuery demoInst 2 = Except.error PyErr.typeErr ∧
    densityRef 0 1 3 2 = 1 / 4 ∧
    (Except.error PyErr.typeErr ≠ (Except.ok (1 / 4) : Except PyErr ℚ)) ∧
    densityQuery demoInst 4 = Except.ok 0 ∧
    densityQuery demoInst (-1) = Except.ok 0 := by
  refine ⟨?_, ?_, fun h => Except.noConfusion h, ?_, ?_⟩
  · have h : simplePdfCall ⟨0, 3, 1, 1 / 2, 1 / 4, none⟩ 2 = Except.error PyErr.typeErr := rfl
    norm_num [densityQuery, demoInst, h]
  · norm_num [densityRef]
  · norm_num [densityQuery, demoInst]
  · norm_num [densityQuery, demoInst]

/-- C5: evaluation at the failing input: construction with the valid triple of
lower 0, upper 3, step 1 raises NameError at its first statement, before the
normalization lines could run, so no constant is ever computed at construction;
the arithmetic of those lines, taken in isolation, would compute exactly the
claimed constants 1/2 and 1/4, which satisfy the claimed normalization
identities — the dead initializer text matches the claim it fails to deliver. -/
theorem simple_norms_never_computed :
    simpleStepUniformNew 0 3 1 = Except.error (PyErr.nameErr ("self")) ∧
    simpleInitNorms 0 3 1 = Except.ok (1 / 2, 1 / 4) ∧
    (1 / 2 : ℚ) = 1 / 2 / (1 - 0) ∧ (1 / 4 : ℚ) = 1 / 2 / (3 - 1) ∧
    (1 / 2 : ℚ) * (1 - 0) = 1 / 2 ∧ (1 / 4 : ℚ) * (3 - 1) = 1 / 2 ∧
    (1 / 2 : ℚ) * (1 - 0) + (1 / 4 : ℚ) * (3 - 1) = 1 := by
  refine ⟨rfl, ?_, by norm_num, by norm_num, by norm_num, by norm_num, by norm_num⟩
  norm_num [simpleInitNorms, pyDiv]

/-- C6: at the in-bounds query with the first parameter below the step and the
second above it, StepUniform._pdf returns the stored generator of low-piece
norms rather than the product 1/4 of the per-parameter reference densities
demanded by the claim; only the out-of-bounds clause agrees, a value outside
any one parameter giving 0.  The enclosing module moreover never parses. -/
theorem step_pdf_not_joint_product :
    stepPdf demoStepState [(("a"), 1 / 2), (("b"), 3 / 2)] = StepPdfResult.gen [1 / 2, 1 / 2] ∧
    jointDensityRef demoStepState [(("a"), 1 / 2), (("b"), 3 / 2)] = 1 / 4 ∧
    StepPdfResult.gen [1 / 2, 1 / 2] ≠ StepPdfResult.num (1 / 4) ∧
    stepPdf demoStepState [(("a"), 5 / 2), (("b"), 3 / 2)] = StepPdfResult.num 0 := by
  have hba : (("b" : String) == ("a" : String)) = false := by rfl
  have hab : (("a" : String) == ("b" : String)) = false := by rfl
  refine ⟨?_, ?_, fun h => StepPdfResult.noConfusion h, ?_⟩
  · norm_num [stepPdf, stepContains, stepNorm1, demoStepState, List.lookup, hba, hab]
  · norm_num [jointDensityRef, densityRef, demoStepState, List.lookup, hba]
  · norm_num [stepPdf, stepContains, demoStepState, List.lookup]

/-- C7: a zero-count sample yields an empty result without error: one
correctly-named empty column per declared parameter in declaration order, or
exactly the one requested column when a single parameter is queried. -/
theorem simple_rvs_zero_count (st : SimpleDistState) (U : Nat → ℚ) (C : Nat → Fin 2)
    (hb : ∀ p ∈ st.params, (st.bounds.lookup p).isSome) :
    (∃ cols, simpleRvs st U C 0 none = Except.ok cols ∧
      cols.map Prod.fst = st.params ∧ ∀ pc ∈ cols, pc.2 = []) ∧
    (∀ q, (st.bounds.lookup q).isSome → simpleRvs st U C 0 (some q) = Except.ok [(q, [])]) := by
  constructor
  · obtain ⟨cols, hc, hmap, hidx⟩ := evenColumns_spec st U 0 st.params 0 hb
    refine ⟨cols, ?_, hmap, ?_⟩
    · simp [simpleRvs, hc]
    · intro pc hpc
      obtain ⟨i, hi⟩ := List.mem_iff_getElem?.mp hpc
      obtain ⟨l, u, _, he⟩ := hidx i pc hi
      rw [he, evenColumn_half_zero]
  · intro q hq
    obtain ⟨lu, hlu⟩ := Option.isSome_iff_exists.mp hq
    obtain ⟨l0, u0⟩ := lu
    simp [simpleRvs, evenColumns, hlu, evenColumn_half_zero]

/-- C7, witness at the one-parameter demonstration state. -/
theorem simple_rvs_zero_count_witness :
    (∃ cols, simpleRvs demoState halfStream zeroFlips 0 none = Except.ok cols ∧
      cols.map Prod.fst = demoState.params ∧ ∀ pc ∈ cols, pc.2 = []) ∧
    (∀ q, (demoState.bounds.lookup q).isSome →
      simpleRvs demoState halfStream zeroFlips 0 (some q) = Except.ok [(q, [])]) :=
  simple_rvs_zero_count demoState halfStream zeroFlips
    (by intro p hp
        simp only [demoState] at hp ⊢
        simp at hp
        subst hp
        decide)

/-- C8 counterexample: a sample of count minus one on the demonstration state
does not fail with InvalidArgumentError: it silently returns a one-record
result, the remainder-style draw, so the negative count is not rejected and a
partial result is produced. -/
theorem simple_rvs_negative_count_counterexample :
    simpleRvs demoState halfStream zeroFlips (-1) none ≠ Except.error PyErr.invalidArgument ∧
    simpleRvs demoState halfStream zeroFlips (-1) none = Except.ok [(("mass1"), [1 / 2])] := by
  have h : simpleRvs demoState halfStream zeroFlips (-1) none =
      Except.ok [(("mass1"), [1 / 2])] := by
    simp [simpleRvs, remainderColumns, remainderDraw, uniformDraw, demoState, halfStream,
          zeroFlips]
  refine ⟨?_, h⟩
  rw [h]
  exact fun hh => Except.noConfusion hh

/-- C8 amended: rvs performs no argument validation: an even negative count
fails with ValueError from the negative array allocation, an odd negative count
silently returns one remainder-style record per parameter, and an unknown
single-parameter name is never checked against params and fails with KeyError
at the bounds lookup; no call raises InvalidArgumentError. -/
theorem simple_rvs_skips_validation (st : SimpleDistState) (U : Nat → ℚ) (C : Nat → Fin 2) :
    (∀ size : Int, size < 0 → size % 2 = 0 → ∀ param,
      simpleRvs st U C size param = Except.error PyErr.valueErr) ∧
    (∀ size : Int, size < 0 → size % 2 = 1 →
      (∀ p ∈ st.params, (st.bounds.lookup p).isSome) →
      ∃ cols, simpleRvs st U C size none = Except.ok cols ∧
        cols.map Prod.fst = st.params ∧ ∀ pc ∈ cols, pc.2.length = 1) ∧
    (∀ q, st.bounds.lookup q = none → ∀ size : Int, 0 ≤ size → size % 2 = 0 →
      simpleRvs st U C size (some q) = Except.error (PyErr.keyErr q)) := by
  refine ⟨?_, ?_, ?_⟩
  · intro size h1 h2 param
    simp [simpleRvs, h1, h2]
  · intro size h1 h2 hb
    have hne : ¬(size % 2 = 0) := by omega
    have hng : ¬(size - 1 > 0) := by omega
    obtain ⟨rems, hr, hmap, _⟩ := remainderColumns_spec st U C st.params 0 hb
    refine ⟨rems.map (fun rc => (rc.1, [rc.2])), ?_, ?_, ?_⟩
    · simp [simpleRvs, hne, hr, hng]
    · rw [map_singleton_fst]
      exact hmap
    · intro pc hpc
      simp only [List.mem_map] at hpc
      obtain ⟨rc, _, rfl⟩ := hpc
      rfl
  · intro q hq size h1 h2
    have hns : ¬ size < 0 := not_lt.mpr h1
    simp [simpleRvs, h2, hns, evenColumns, hq]

/-- C8 amended, witness: the three behaviors at counts -2 and -1 and at an
unknown parameter name on the demonstration state. -/
theorem simple_rvs_skips_validation_witness :
    simpleRvs demoState halfStream zeroFlips (-2) none = Except.error PyErr.valueErr ∧
    (∃ cols, simpleRvs demoState halfStream zeroFlips (-1) none = Except.ok cols ∧
      cols.map Prod.fst = demoState.params ∧ ∀ pc ∈ cols, pc.2.length = 1) ∧
    simpleRvs demoState halfStream zeroFlips 4 (some ("nosuch")) =
      Except.error (PyErr.keyErr ("nosuch")) := by
  have h := simple_rvs_skips_validation demoState halfStream zeroFlips
  refine ⟨h.1 (-2) (by decide) (by decide) none, h.2.1 (-1) (by decide) (by decide) ?_,
          h.2.2 ("nosuch") (by decide) 4 (by decide) (by decide)⟩
  intro p hp
  simp only [demoState] at hp ⊢
  simp at hp
  subst hp
  decide

/-- C1: for a valid distribution state and an even nonnegative count, rvs
returns one column per declared parameter in declaration order, each of length
count, whose first count/2 entries are draws from the half-open low piece and
whose remaining count/2 entries are draws from the high piece. -/
theorem simple_rvs_even_split (st : SimpleDistState) (U : Nat → ℚ) (C : Nat → Fin 2)
    (size : Int) (hsz : 0 ≤ size) (heven : size % 2 = 0)
    (hU : ∀ i, 0 ≤ U i ∧ U i < 1)
    (hb : ∀ p ∈ st.params, ∃ l u, st.bounds.lookup p = some (l, u) ∧
      l < st.step ∧ st.step < u) :
    ∃ cols, simpleRvs st U C size none = Except.ok cols ∧
      cols.map Prod.fst = st.params ∧
      ∀ pc ∈ cols, ∀ l u, st.bounds.lookup pc.1 = some (l, u) →
        pc.2.length = size.toNat ∧
        (pc.2.take (size / 2).toNat).length = (size / 2).toNat ∧
        (∀ x ∈ pc.2.take (size / 2).toNat, l ≤ x ∧ x < st.step) ∧
        (pc.2.drop (size / 2).toNat).length = (size / 2).toNat ∧
        (∀ x ∈ pc.2.drop (size / 2).toNat, st.step ≤ x ∧ x ≤ u) := by
  have hb' : ∀ p ∈ st.params, (st.bounds.lookup p).isSome := by
    intro p hp
    obtain ⟨l, u, hl, _, _⟩ := hb p hp
    simp [hl]
  obtain ⟨cols, hc, hmap, hidx⟩ := evenColumns_spec st U (size / 2).toNat st.params 0 hb'
  have hns : ¬ size < 0 := not_lt.mpr hsz
  refine ⟨cols, ?_, hmap, ?_⟩
  · simp [simpleRvs, heven, hns, hc]
  · intro pc hpc l u hl
    obtain ⟨i, hi⟩ := List.mem_iff_getElem?.mp hpc
    obtain ⟨l', u', hl', he⟩ := hidx i pc hi
    rw [hl] at hl'
    simp only [Option.some.injEq, Prod.mk.injEq] at hl'
    obtain ⟨rfl, rfl⟩ := hl'
    have hmem : pc.1 ∈ st.params := by
      rw [← hmap]
      exact List.mem_map_of_mem Prod.fst hpc
    obtain ⟨l2, u2, hl2, hlo, hhi⟩ := hb pc.1 hmem
    rw [hl] at hl2
    simp only [Option.some.injEq, Prod.mk.injEq] at hl2
    obtain ⟨rfl, rfl⟩ := hl2
    rw [he]
    refine ⟨?_, ?_, ?_, ?_, ?_⟩
    · rw [evenColumn_length]
      omega
    · rw [evenColumn_take, uniformDraws_length]
    · rw [evenColumn_take]
      exact uniformDraws_mem U hU _ _ st.step hlo _
    · rw [evenColumn_drop, uniformDraws_length]
    · rw [evenColumn_drop]
      intro x hx
      have hm := uniformDraws_mem U hU _ st.step _ hhi _ x hx
      exact ⟨hm.1, le_of_lt hm.2⟩

/-- C1, witness at count 4 on the demonstration state. -/
theorem simple_rvs_even_split_witness :
    (0 : Int) ≤ 4 ∧ (4 : Int) % 2 = 0 ∧
    (∃ cols, simpleRvs demoState halfStream zeroFlips 4 none = Except.ok cols ∧
      cols.map Prod.fst = demoState.params ∧
      ∀ pc ∈ cols, ∀ l u, demoState.bounds.lookup pc.1 = some (l, u) →
        pc.2.length = (4 : Int).toNat ∧
        (pc.2.take ((4 : Int) / 2).toNat).length = ((4 : Int) / 2).toNat ∧
        (∀ x ∈ pc.2.take ((4 : Int) / 2).toNat, l ≤ x ∧ x < demoState.step) ∧
        (pc.2.drop ((4 : Int) / 2).toNat).length = ((4 : Int) / 2).toNat ∧
        (∀ x ∈ pc.2.drop ((4 : Int) / 2).toNat, demoState.step ≤ x ∧ x ≤ u)) :=
  ⟨by decide, by decide,
   simple_rvs_even_split demoState halfStream zeroFlips 4 (by decide) (by decide)
     (fun i => by norm_num [halfStream])
     (by intro p hp
         simp only [demoState] at hp ⊢
         simp at hp
         subst hp
         exact ⟨0, 2, by decide, by norm_num, by norm_num⟩)⟩

/-- C2: for a valid distribution state and an odd count of at least one, rvs
returns one column per declared parameter; the column of parameter number i
starts with one remainder draw whose piece is chosen by coin flip number i of
that parameter, followed by (count - 1)/2 draws from the half-open low piece
and then (count - 1)/2 draws from the high piece, so apart from the remainder
the draws split exactly evenly. -/
theorem simple_rvs_odd_split (st : SimpleDistState) (U : Nat → ℚ) (C : Nat → Fin 2)
    (size : Int) (hsz : 1 ≤ size) (hodd : size % 2 = 1)
    (hU : ∀ i, 0 ≤ U i ∧ U i < 1)
    (hb : ∀ p ∈ st.params, ∃ l u, st.bounds.lookup p = some (l, u) ∧
      l < st.step ∧ st.step < u) :
    ∃ cols, simpleRvs st U C size none = Except.ok cols ∧
      cols.map Prod.fst = st.params ∧
      ∀ i pc, cols[i]? = some pc → ∀ l u, st.bounds.lookup pc.1 = some (l, u) →
        ∃ r rest, pc.2 = r :: rest ∧
          (C i = 0 → l ≤ r ∧ r < st.step) ∧
          (C i = 1 → st.step ≤ r ∧ r ≤ u) ∧
          rest.length = (size - 1).toNat ∧
          (rest.take ((size - 1) / 2).toNat).length = ((size - 1) / 2).toNat ∧
          (∀ x ∈ rest.take ((size - 1) / 2).toNat, l ≤ x ∧ x < st.step) ∧
          (rest.drop ((size - 1) / 2).toNat).length = ((size - 1) / 2).toNat ∧
          (∀ x ∈ rest.drop ((size - 1) / 2).toNat, st.step ≤ x ∧ x ≤ u) := by
  have hb' : ∀ p ∈ st.params, (st.bounds.lookup p).isSome := by
    intro p hp
    obtain ⟨l, u, hl, _, _⟩ := hb p hp
    simp [hl]
  have hne : ¬(size % 2 = 0) := by omega
  obtain ⟨rems, hr, hrmap, hridx⟩ := remainderColumns_spec st U C st.params 0 hb'
  by_cases hgate : size - 1 > 0
  · obtain ⟨mains, hm, hmmap, hmidx⟩ :=
      evenColumns_spec st U ((size - 1) / 2).toNat st.params st.params.length hb'
    have hlen : rems.length = mains.length := by
      have e1 := congrArg List.length hrmap
      have e2 := congrArg List.length hmmap
      simp only [List.length_map] at e1 e2
      rw [e1, e2]
    refine ⟨consColumns rems mains, ?_, ?_, ?_⟩
    · simp [simpleRvs, hne, hr, hgate, hm]
    · rw [consColumns_map_fst rems mains hlen]
      exact hrmap
    · intro i pc hpc l u hl
      obtain ⟨r, m, hri, hmi, rfl⟩ := consColumns_getElem rems mains i pc hpc
      obtain ⟨l1, u1, hl1, hre⟩ := hridx i r hri
      obtain ⟨l2, u2, hl2, hme⟩ := hmidx i m hmi
      have hfst : r.1 = m.1 := by
        have h1 : st.params[i]? = some r.1 := by
          rw [← hrmap, List.getElem?_map, hri]
          rfl
        have h2 : st.params[i]? = some m.1 := by
          rw [← hmmap, List.getElem?_map, hmi]
          rfl
        rw [h1] at h2
        exact Option.some.inj h2
      have hl1' : st.bounds.lookup r.1 = some (l, u) := hl
      rw [hl1'] at hl1
      simp only [Option.some.injEq, Prod.mk.injEq] at hl1
      obtain ⟨rfl, rfl⟩ := hl1
      rw [← hfst, hl1'] at hl2
      simp only [Option.some.injEq, Prod.mk.injEq] at hl2
      obtain ⟨rfl, rfl⟩ := hl2
      have hmem : r.1 ∈ st.params := by
        have h1 : st.params[i]? = some r.1 := by
          rw [← hrmap, List.getElem?_map, hri]
          rfl
        rw [List.mem_iff_getElem?]
        exact ⟨i, h1⟩
      obtain ⟨l3, u3, hl3, hlo, hhi⟩ := hb r.1 hmem
      rw [hl1'] at hl3
      simp only [Option.some.injEq, Prod.mk.injEq] at hl3
      obtain ⟨rfl, rfl⟩ := hl3
      simp only [Nat.zero_add] at hre
      refine ⟨r.2, m.2, rfl, ?_, ?_, ?_, ?_, ?_, ?_, ?_⟩
      · intro hc
        rw [hre, hc, remainderDraw_low]
        exact uniformDraw_mem _ st.step (U i) hlo (hU i).1 (hU i).2
      · intro hc
        rw [hre, hc, remainderDraw_high]
        have hm2 := uniformDraw_mem st.step _ (U i) hhi (hU i).1 (hU i).2
        exact ⟨hm2.1, le_of_lt hm2.2⟩
      · rw [hme, evenColumn_length]
        omega
      · rw [hme, evenColumn_take, uniformDraws_length]
      · rw [hme, evenColumn_take]
        exact uniformDraws_mem U hU _ _ st.step hlo _
      · rw [hme, evenColumn_drop, uniformDraws_length]
      · rw [hme, evenColumn_drop]
        intro x hx
        have hm2 := uniformDraws_mem U hU _ st.step _ hhi _ x hx
        exact ⟨hm2.1, le_of_lt hm2.2⟩
  · have hs1 : size = 1 := by omega
    subst hs1
    refine ⟨rems.map (fun rc => (rc.1, [rc.2])), ?_, ?_, ?_⟩
    · simp [simpleRvs, hne, hr, hgate]
    · rw [map_singleton_fst]
      exact hrmap
    · intro i pc hpc l u hl
      rw [List.getElem?_map] at hpc
      obtain ⟨rc, hrc, rfl⟩ := Option.map_eq_some'.mp hpc
      obtain ⟨l1, u1, hl1, hre⟩ := hridx i rc hrc
      have hl1' : st.bounds.lookup rc.1 = some (l, u) := hl
      rw [hl1'] at hl1
      simp only [Option.some.injEq, Prod.mk.injEq] at hl1
      obtain ⟨rfl, rfl⟩ := hl1
      have hmem : rc.1 ∈ st.params := by
        have h1 : st.params[i]? = some rc.1 := by
          rw [← hrmap, List.getElem?_map, hrc]
          rfl
        rw [List.mem_iff_getElem?]
        exact ⟨i, h1⟩
      obtain ⟨l3, u3, hl3, hlo, hhi⟩ := hb rc.1 hmem
      rw [hl1'] at hl3
      simp only [Option.some.injEq, Prod.mk.injEq] at hl3
      obtain ⟨rfl, rfl⟩ := hl3
      simp only [Nat.zero_add] at hre
      refine ⟨rc.2, [], rfl, ?_, ?_, by simp, by simp, by simp, by simp, by simp⟩
      · intro hc
        rw [hre, hc, remainderDraw_low]
        exact uniformDraw_mem _ st.step (U i) hlo (hU i).1 (hU i).2
      · intro hc
        rw [hre, hc, remainderDraw_high]
        have hm2 := uniformDraw_mem st.step _ (U i) hhi (hU i).1 (hU i).2
        exact ⟨hm2.1, le_of_lt hm2.2⟩

/-- C2, witness at count 3 on the demonstration state. -/
theorem simple_rvs_odd_split_witness :
    (1 : Int) ≤ 3 ∧ (3 : Int) % 2 = 1 ∧
    (∃ cols, simpleRvs demoState halfStream zeroFlips 3 none = Except.ok cols ∧
      cols.map Prod.fst = demoState.params ∧
      ∀ i pc, cols[i]? = some pc → ∀ l u, demoState.bounds.lookup pc.1 = some (l, u) →
        ∃ r rest, pc.2 = r :: rest ∧
          (zeroFlips i = 0 → l ≤ r ∧ r < demoState.step) ∧
          (zeroFlips i = 1 → demoState.step ≤ r ∧ r ≤ u) ∧
          rest.length = ((3 : Int) - 1).toNat ∧
          (rest.take (((3 : Int) - 1) / 2).toNat).length = (((3 : Int) - 1) / 2).toNat ∧
          (∀ x ∈ rest.take (((3 : Int) - 1) / 2).toNat, l ≤ x ∧ x < demoState.step) ∧
          (rest.drop (((3 : Int) - 1) / 2).toNat).length = (((3 : Int) - 1) / 2).toNat ∧
          (∀ x ∈ rest.drop (((3 : Int) - 1) / 2).toNat, demoState.step ≤ x ∧ x ≤ u)) :=
  ⟨by decide, by decide,
   simple_rvs_odd_split demoState halfStream zeroFlips 3 (by decide) (by decide)
     (fun i => by norm_num [halfStream])
     (by intro p hp
         simp only [demoState] at hp ⊢
         simp at hp
         subst hp
         exact ⟨0, 2, by decide, by norm_num, by norm_num⟩)⟩

end StepUniformSpec
